import Mathlib

/-!
# Verification of the strict-types core model

A shallow embedding of the `strict-types` Rust crate (type AST,
confined field/variant collections, key-type narrowing, classification
tags, library/type-system identity) together with proofs of the
specification claims.

Conventions of the embedding:

* Rust `u8`/`u16`/`u64` values are represented by `Nat`; all the
  operations verified here never overflow (they compare, index and
  copy, so no modular arithmetic is needed).
* Rust `BTreeMap`/`BTreeSet` values are represented by their ascending
  entry lists; building a map by repeated insertion is modelled by
  `mapInsert`/`mapOfList` below.
* Fallible Rust functions returning `Result<T, E>` are modelled with
  `Except E T`.
* External collaborator types (`Primitive`, `Sizing`, `Variant`,
  identifier strings, the blake3 hasher) that live outside the `src/`
  tree are modelled from the specification; each such definition
  carries a doc comment starting with `Modelled from the spec:`.
-/

namespace StrictTypes

/-- Modelled from the spec: `Primitive` (external `strict_encoding`
crate) is an "enumerated numeric/float kind tagged by byte
width/signedness ... plus a distinguished `UNIT` and `BYTE`"; it is a
plain wrapper around its `u8` code, and only the distinctness of the
codes matters here. -/
structure Primitive where
  code : Nat
deriving DecidableEq

/-- Modelled from the spec: the distinguished `UNIT` primitive. -/
def Primitive.UNIT : Primitive := ⟨0x00⟩

/-- Modelled from the spec: the distinguished `BYTE` primitive. -/
def Primitive.BYTE : Primitive := ⟨0x40⟩

/-- Modelled from the spec: the `U8` primitive code. -/
def Primitive.U8 : Primitive := ⟨0x01⟩

/-- Modelled from the spec: `Sizing` (external `strict_encoding`
crate) is "a closed interval `[min,max]` describing element-count
bounds for variable-length containers". -/
structure Sizing where
  min : Nat
  max : Nat
deriving DecidableEq

namespace Sizing

/-- Modelled from the spec: `Sizing::ONE` = exactly 1. -/
def ONE : Sizing := ⟨1, 1⟩

/-- Modelled from the spec: fixed sizing = `[n,n]`. -/
def fixed (n : Nat) : Sizing := ⟨n, n⟩

end Sizing

/-- Modelled from the spec: `Variant` (external `strict_encoding`
crate) is a `{tag : u8, name}` pair; variant and field names are
"opaque validated identifier/string wrappers ... totally ordered,
hashable, and have stable display text", modelled as `String`. -/
structure Variant where
  tag : Nat
  name : String
deriving DecidableEq

namespace Variant

/-- Modelled from the spec: the canonical `none` variant
(`Variant::none()`), tag 0. -/
def noneV : Variant := ⟨0, "none"⟩

/-- Modelled from the spec: the canonical `some` variant
(`Variant::some()`), tag 1. -/
def someV : Variant := ⟨1, "some"⟩

end Variant

/-- The closed 11-way classification tag (`Cls` in `ast/ty.rs`),
with its stable `u8` discriminants 0..10. -/
inductive Cls where
  | primitive
  | unicode
  | asciiStr
  | enum
  | union
  | struc
  | tuple
  | array
  | list
  | set
  | map
deriving DecidableEq

namespace Cls

/-- The `u8` discriminant of each `Cls` value (`Cls as u8`,
`impl From<Cls> for u8` in `ast/ty.rs`). -/
def toU8 : Cls → Nat
  | .primitive => 0
  | .unicode => 1
  | .asciiStr => 2
  | .enum => 3
  | .union => 4
  | .struc => 5
  | .tuple => 6
  | .array => 7
  | .list => 8
  | .set => 9
  | .map => 10

/-- `Cls::ALL` from `ast/ty.rs`: the 11 classes in discriminant
order. -/
def ALL : List Cls :=
  [.primitive, .unicode, .asciiStr, .enum, .union, .struc, .tuple,
   .array, .list, .set, .map]

end Cls

/-- The error returned when a `u8` matches no `Cls` variant
(`VariantError(tn!("Cls"), value)`; the error type itself comes from
the external `strict_encoding` crate and carries the type name and the
offending byte). -/
structure VariantError where
  tyName : String
  value : Nat
deriving DecidableEq

/-- `impl TryFrom<u8> for Cls` in `ast/ty.rs`: scan `Cls::ALL` for the
first class whose discriminant equals the byte; fail with
`VariantError("Cls", value)` otherwise. -/
def Cls.try_from (value : Nat) : Except VariantError Cls :=
  match Cls.ALL.find? (fun cls => cls.toU8 == value) with
  | some cls => .ok cls
  | none => .error ⟨"Cls", value⟩

/-- Semantic type id (`SemId`, a 32-byte `Bytes32` wrapper); modelled
as the list of its bytes. -/
structure SemId where
  bytes : List Nat
deriving DecidableEq

/-- `EnumVariants` from `ast/ty.rs`: a confined ordered set of
`Variant`s (`Confined<BTreeSet<Variant>, 1, 255>`); the wrapped list
is the set's ascending element list. -/
structure EnumVariants where
  toList : List Variant
deriving DecidableEq

/-- `KeyTy` from `ast/ty.rs`: the restricted subset of the type
algebra legal as a map key. -/
inductive KeyTy where
  | primitive (code : Primitive)
  | enum (vars : EnumVariants)
  | array (len : Nat)
  | unicodeStr (sizing : Sizing)
  | asciiStr (sizing : Sizing)
  | bytes (sizing : Sizing)
deriving DecidableEq

/-- `KeyTy::cls` from `ast/ty.rs`. -/
def KeyTy.cls : KeyTy → Cls
  | .primitive _ => .primitive
  | .enum _ => .enum
  | .array _ => .array
  | .unicodeStr _ => .unicode
  | .asciiStr _ => .asciiStr
  | .bytes _ => .list

/-- `Field` from `ast/ty.rs`: a named field `{name, ty}`. -/
structure Field (Ref : Type) where
  name : String
  ty : Ref
deriving DecidableEq

/-- `NamedFields` from `ast/ty.rs`:
`Confined<Vec<Field<Ref>>, 1, 255>`, an ordered sequence of named
fields. -/
structure NamedFields (Ref : Type) where
  toList : List (Field Ref)
deriving DecidableEq

/-- `UnnamedFields` from `ast/ty.rs`: `Confined<Vec<Ref>, 1, 255>`,
an ordered sequence of bare references. -/
structure UnnamedFields (Ref : Type) where
  toList : List Ref
deriving DecidableEq

/-- `UnionVariants` from `ast/ty.rs`:
`Confined<BTreeMap<Variant, Ref>, 1, 255>`; the wrapped list is the
map's ascending entry list. -/
structure UnionVariants (Ref : Type) where
  toList : List (Variant × Ref)
deriving DecidableEq

/-- The recursive type AST `Ty<Ref>` from `ast/ty.rs`, parametrized
over the reference type. -/
inductive Ty (Ref : Type) where
  | primitive (code : Primitive)
  | unicodeChar
  | enum (vars : EnumVariants)
  | union (variants : UnionVariants Ref)
  | tuple (fields : UnnamedFields Ref)
  | struc (fields : NamedFields Ref)
  | array (ty : Ref) (len : Nat)
  | list (ty : Ref) (sizing : Sizing)
  | set (ty : Ref) (sizing : Sizing)
  | map (key : KeyTy) (val : Ref) (sizing : Sizing)
deriving DecidableEq

/-- The `TypeRef` capability trait from `ast/ty.rs`: anything that can
report its own `SemId` and whether it denotes a raw byte, a Unicode
scalar, or an ASCII character (the three predicates default to
`false`). -/
class TypeRefC (Ref : Type) where
  refId : Ref → SemId
  is_byte : Ref → Bool := fun _ => false
  is_unicode_char : Ref → Bool := fun _ => false
  is_ascii_char : Ref → Bool := fun _ => false

/-- `impl TypeRef for SemId` in `ast/ty.rs`: the id is the value
itself, the three predicates keep their default `false`. -/
instance : TypeRefC SemId where
  refId s := s

/-- `Ty::cls` from `ast/ty.rs`. -/
def Ty.cls {Ref : Type} : Ty Ref → Cls
  | .primitive _ => .primitive
  | .enum _ => .enum
  | .union _ => .union
  | .struc _ => .struc
  | .tuple _ => .tuple
  | .array _ _ => .array
  | .unicodeChar => .unicode
  | .list _ _ => .list
  | .set _ _ => .set
  | .map _ _ _ => .map

/-- Modelled from the spec: the default name the `variants!` range
macro (external `strict_encoding` crate) gives to the variant with a
given tag; ASCII detection only needs this naming to be a fixed
injective function of the tag. -/
def defaultVariantName (tag : Nat) : String := "_" ++ toString tag

/-- `Ty::ascii_char()` from `ast/ty.rs`:
`Ty::Enum(variants!(0..=127))`, the exact 128-variant enum with tags
0..=127 and default names. -/
def Ty.ascii_char {Ref : Type} : Ty Ref :=
  .enum ⟨(List.range 128).map (fun tag => ⟨tag, defaultVariantName tag⟩)⟩

/-- The constant `Ty::BYTE` from `ast/ty.rs`. -/
def Ty.BYTE {Ref : Type} : Ty Ref := .primitive Primitive.BYTE

/-- The constant `Ty::UNICODE` from `ast/ty.rs`. -/
def Ty.UNICODE {Ref : Type} : Ty Ref := .unicodeChar

/-- `Ty::is_byte` from `ast/ty.rs`: equality against `Ty::BYTE`. -/
def Ty.is_byte {Ref : Type} [DecidableEq Ref] (t : Ty Ref) : Bool :=
  t == Ty.BYTE

/-- `Ty::is_unicode_char` from `ast/ty.rs`: equality against
`Ty::UNICODE`. -/
def Ty.is_unicode_char {Ref : Type} [DecidableEq Ref] (t : Ty Ref) : Bool :=
  t == Ty.UNICODE

/-- `Ty::is_ascii_char` from `ast/ty.rs`: equality against
`Ty::ascii_char()`. -/
def Ty.is_ascii_char {Ref : Type} [DecidableEq Ref] (t : Ty Ref) : Bool :=
  t == Ty.ascii_char

/-- `Ty::try_to_key` from `ast/ty.rs`, guard-for-guard: the match arms
are tested in source order (byte element before unicode element before
ascii element), the three element predicates are the `TypeRef` ones of
the reference type, and every unmatched arm returns the input itself
as the error. -/
def Ty.try_to_key {Ref : Type} [TypeRefC Ref] (t : Ty Ref) :
    Except (Ty Ref) KeyTy :=
  match t with
  | .primitive code => .ok (.primitive code)
  | .enum vars => .ok (.enum vars)
  | .array ty len =>
    if TypeRefC.is_byte ty then .ok (.array len)
    else if TypeRefC.is_unicode_char ty then .ok (.unicodeStr (Sizing.fixed len))
    else .error (.array ty len)
  | .list ty sizing =>
    if TypeRefC.is_byte ty then .ok (.bytes sizing)
    else if TypeRefC.is_unicode_char ty then .ok (.unicodeStr sizing)
    else if TypeRefC.is_ascii_char ty then .ok (.asciiStr sizing)
    else .error (.list ty sizing)
  | .unicodeChar => .ok (.unicodeStr Sizing.ONE)
  | .union variants => .error (.union variants)
  | .struc fields => .error (.struc fields)
  | .tuple fields => .error (.tuple fields)
  | .set ty sizing => .error (.set ty sizing)
  | .map key val sizing => .error (.map key val sizing)

/-- The key-narrowing table exactly as the specification words it
(§4.4 of the spec; the reference definition a refinement proof
compares `Ty.try_to_key` against): primitives, enums, byte
arrays/lists, unicode arrays/lists, ascii lists and the unicode char
narrow; everything else is rejected with the original type. -/
def tryToKeySpecTable {Ref : Type} [TypeRefC Ref] (t : Ty Ref) :
    Except (Ty Ref) KeyTy :=
  match t with
  | .primitive p => .ok (.primitive p)
  | .enum v => .ok (.enum v)
  | .array ty len =>
    if TypeRefC.is_byte ty then .ok (.array len)
    else if TypeRefC.is_unicode_char ty then .ok (.unicodeStr (Sizing.fixed len))
    else .error t
  | .list ty sizing =>
    if TypeRefC.is_byte ty then .ok (.bytes sizing)
    else if TypeRefC.is_unicode_char ty then .ok (.unicodeStr sizing)
    else if TypeRefC.is_ascii_char ty then .ok (.asciiStr sizing)
    else .error t
  | .unicodeChar => .ok (.unicodeStr Sizing.ONE)
  | .union _ | .struc _ | .tuple _ | .set _ _ | .map _ _ _ => .error t

namespace UnionVariants

/-- `UnionVariants::len` (via the `Confined` deref): the number of
variants. -/
def len {Ref : Type} (vs : UnionVariants Ref) : Nat := vs.toList.length

/-- Indexing the union's variant map by position
(`variants[pos]` via the confined `BTreeMap` index): the key at the
given position of the ascending entry list. -/
def keyAt {Ref : Type} (vs : UnionVariants Ref) (pos : Nat) : Option Variant :=
  (vs.toList.get? pos).map Prod.fst

/-- `BTreeMap::get` on the variant map: find the entry whose key
equals the probe and return its value. Modelled from the spec: `Variant`
ordering and equality come from the external `strict_encoding` crate;
per §3 of the spec variants are "sorted by tag then name", so lookup
succeeds exactly on a structurally equal key. -/
def get {Ref : Type} (vs : UnionVariants Ref) (key : Variant) : Option Ref :=
  (vs.toList.find? (fun e => e.1 == key)).map Prod.snd

/-- `UnionVariants::ty_at` from `ast/ty.rs`:
`self.values().skip(pos).next()`. -/
def ty_at {Ref : Type} (vs : UnionVariants Ref) (pos : Nat) : Option Ref :=
  (vs.toList.map Prod.snd).get? pos

end UnionVariants

/-- `NamedFields::ty_at` from `ast/ty.rs`: `self.0.get(pos)`. -/
def NamedFields.ty_at {Ref : Type} (fs : NamedFields Ref) (pos : Nat) :
    Option Ref :=
  (fs.toList.get? pos).map Field.ty

/-- `UnnamedFields::ty_at` from `ast/ty.rs`: `self.0.get(pos)`. -/
def UnnamedFields.ty_at {Ref : Type} (fs : UnnamedFields Ref) (pos : Nat) :
    Option Ref :=
  fs.toList.get? pos

/-- `Ty::is_option` from `ast/ty.rs`: a union of exactly two variants
whose first (sorted) variant is named `"none"` and second is named
`"some"`; the comparisons `variants[i] == &fname!(...)` compare the
variant's name only. -/
def Ty.is_option {Ref : Type} (t : Ty Ref) : Bool :=
  match t with
  | .union variants =>
    variants.len == 2
      && (variants.keyAt 0).any (fun v => v.name == "none")
      && (variants.keyAt 1).any (fun v => v.name == "some")
  | _ => false

/-- `Ty::ty_at` from `ast/ty.rs`: positional access to the member
types; for the four collection classes the element (for maps: value)
type is returned only when `pos > 0`. -/
def Ty.ty_at {Ref : Type} (t : Ty Ref) (pos : Nat) : Option Ref :=
  match t with
  | .union fields => fields.ty_at pos
  | .struc fields => fields.ty_at pos
  | .tuple fields => fields.ty_at pos
  | .array ty _ => if pos > 0 then some ty else none
  | .list ty _ => if pos > 0 then some ty else none
  | .set ty _ => if pos > 0 then some ty else none
  | .map _ ty _ => if pos > 0 then some ty else none
  | _ => none

/-- Modelled from the spec: the stable display text of a `Primitive`
(external `strict_encoding` crate); the spec's §8 examples fix
`BYTE ↦ "Byte"`, the remaining codes only need a stable rendering. -/
def Primitive.display (p : Primitive) : String :=
  if p = Primitive.BYTE then "Byte"
  else if p = Primitive.UNIT then "Unit"
  else "Primitive" ++ toString p.code

/-- Modelled from the spec: the display text of a `Sizing` (external
`strict_encoding` crate); the spec's §8 example fixes
`Sizing::new(0,255) ↦ "{0,255}"`. -/
def Sizing.display (s : Sizing) : String :=
  "\x7b" ++ toString s.min ++ "," ++ toString s.max ++ "\x7d"

/-- Modelled from the spec: the stable display text of a `Variant`
(external `strict_encoding` crate), in both plain and alternate form
its validated name. -/
def Variant.display (v : Variant) : String := v.name

/-- `impl Display for EnumVariants` from `ast/ty.rs`: the variants in
alternate form joined by `" | "`. -/
def EnumVariants.display (vs : EnumVariants) : String :=
  String.intercalate " | " (vs.toList.map Variant.display)

/-- The `#[display(...)]` attributes of `KeyTy` in `ast/ty.rs`:
inner display for primitives, `"({0})"` for enums, `"[Byte ^ {0}]"`
for arrays, `"[Unicode{0}]"`, `"[Ascii{0}]"` and `"[Byte{0}]"` for the
three string forms. -/
def KeyTy.display : KeyTy → String
  | .primitive p => p.display
  | .enum vars => "(" ++ vars.display ++ ")"
  | .array len => "[Byte ^ " ++ toString len ++ "]"
  | .unicodeStr s => "[Unicode" ++ s.display ++ "]"
  | .asciiStr s => "[Ascii" ++ s.display ++ "]"
  | .bytes s => "[Byte" ++ s.display ++ "]"

/-- `impl Display for NamedFields` from `ast/ty.rs`: `"name ty"`
pairs joined by `", "`. -/
def NamedFields.display {Ref : Type} (dispRef : Ref → String)
    (fs : NamedFields Ref) : String :=
  String.intercalate ", " (fs.toList.map (fun f => f.name ++ " " ++ dispRef f.ty))

/-- `impl Display for UnnamedFields` from `ast/ty.rs`: the field types
joined by `", "` inside parentheses. -/
def UnnamedFields.display {Ref : Type} (dispRef : Ref → String)
    (fs : UnnamedFields Ref) : String :=
  "(" ++ String.intercalate ", " (fs.toList.map dispRef) ++ ")"

/-- `impl Display for UnionVariants` from `ast/ty.rs`: `"variant ty"`
pairs joined by `" | "`. -/
def UnionVariants.display {Ref : Type} (dispRef : Ref → String)
    (vs : UnionVariants Ref) : String :=
  String.intercalate " | "
    (vs.toList.map (fun e => e.1.display ++ " " ++ dispRef e.2))

/-- `impl Display for Ty` from `ast/ty.rs`. The `Ty::Union` arm
guarded by `is_option` formats the result of
`fields.get(&Variant::some()).expect("optional")` followed by `"?"`;
the `.expect` panic is modelled by returning `none`, every other arm
always produces a string. -/
def Ty.display {Ref : Type} (dispRef : Ref → String) (t : Ty Ref) :
    Option String :=
  match t with
  | .primitive prim => some prim.display
  | .enum vars => some vars.display
  | .union fields =>
    if (Ty.union fields).is_option then
      (fields.get Variant.someV).map (fun inner => dispRef inner ++ "?")
    else some (fields.display dispRef)
  | .struc fields => some (fields.display dispRef)
  | .tuple fields => some (fields.display dispRef)
  | .array ty len => some ("[" ++ dispRef ty ++ " ^ " ++ toString len ++ "]")
  | .unicodeChar => some "Unicode"
  | .list ty sizing => some ("[" ++ dispRef ty ++ sizing.display ++ "]")
  | .set ty sizing =>
    some ("\x7b" ++ dispRef ty ++ sizing.display ++ "\x7d")
  | .map key ty sizing =>
    some ("\x7b" ++ key.display ++ " ->" ++ sizing.display ++ " "
      ++ dispRef ty ++ "\x7d")

/-- Modelled from the spec: the baid58-style display of a `SemId`;
only stability matters here. -/
def SemId.display (s : SemId) : String :=
  String.intercalate ":" (s.bytes.map toString)

/-- Modelled from the spec: the 32-byte keyed blake3 digest (external
`blake3` crate). The development relies only on the digest being a
pure deterministic function of the key and the message, which is all
the identity claims use; the internal compression is not modelled. -/
def blake3Keyed (key msg : List Nat) : List Nat :=
  let st := (key ++ 255 :: msg).foldl
    (fun acc b => (acc * 1099511628211 + (b + 1)) % 18446744073709551616)
    14695981039346656037
  (List.range 32).map (fun i => (st >>> (8 * (i % 8))) % 256)

/-- The incremental blake3 hasher interface used by `TypeLib::id`
(`blake3::Hasher::new_keyed` / `update` / `finalize`): the key and the
bytes fed so far. -/
structure Blake3Hasher where
  key : List Nat
  fed : List Nat

/-- `blake3::Hasher::new_keyed`: fresh hasher with the given key. -/
def Blake3Hasher.new_keyed (key : List Nat) : Blake3Hasher := ⟨key, []⟩

/-- `blake3::Hasher::update`: append bytes to the fed stream. -/
def Blake3Hasher.update (h : Blake3Hasher) (bytes : List Nat) : Blake3Hasher :=
  ⟨h.key, h.fed ++ bytes⟩

/-- `blake3::Hasher::finalize`: the digest of everything fed. -/
def Blake3Hasher.finalize (h : Blake3Hasher) : List Nat :=
  blake3Keyed h.key h.fed

/-- Canonical byte encoding of a `String` identifier: length followed
by the character codes (modelled from the spec: the byte layout is
delegated to the external canonical-encoding collaborator, which must
map structurally equal values to identical bytes). -/
def encodeString (s : String) : List Nat :=
  s.length :: s.toList.map Char.toNat

/-- Canonical byte encoding of a `Variant`: tag then name. -/
def Variant.encode (v : Variant) : List Nat :=
  v.tag :: encodeString v.name

/-- Canonical byte encoding of a `Sizing`: min then max. -/
def Sizing.encode (s : Sizing) : List Nat := [s.min, s.max]

/-- Canonical byte encoding of a `SemId`: length-prefixed id bytes. -/
def SemId.encode (s : SemId) : List Nat := s.bytes.length :: s.bytes

/-- Canonical byte encoding of `EnumVariants`: count followed by the
variants in ascending order. -/
def EnumVariants.encode (vs : EnumVariants) : List Nat :=
  vs.toList.length :: (vs.toList.map Variant.encode).flatten

/-- Canonical byte encoding of a `KeyTy`: its `Cls` byte followed by
the payload. -/
def KeyTy.encode (k : KeyTy) : List Nat :=
  k.cls.toU8 ::
    match k with
    | .primitive p => [p.code]
    | .enum vars => vars.encode
    | .array len => [len]
    | .unicodeStr s => s.encode
    | .asciiStr s => s.encode
    | .bytes s => s.encode

/-- Canonical byte encoding of a `Ty<SemId>` node (modelled from the
spec, §4.5: the `Cls` byte, then the payload with struct/tuple fields
in declaration order, union/enum variants in ascending tag order and
nested references resolved to their identity bytes, never inlined). -/
def Ty.encodeSem (t : Ty SemId) : List Nat :=
  t.cls.toU8 ::
    match t with
    | .primitive p => [p.code]
    | .unicodeChar => []
    | .enum vars => vars.encode
    | .union variants =>
      variants.toList.length ::
        (variants.toList.map (fun e => e.1.encode ++ e.2.encode)).flatten
    | .tuple fields =>
      fields.toList.length :: (fields.toList.map SemId.encode).flatten
    | .struc fields =>
      fields.toList.length ::
        (fields.toList.map (fun f => encodeString f.name ++ f.ty.encode)).flatten
    | .array r len => len :: r.encode
    | .list r s => s.encode ++ r.encode
    | .set r s => s.encode ++ r.encode
    | .map k r s => k.encode ++ s.encode ++ r.encode

/-- Modelled from the spec: the semantic id of a type
(`Ty::id`, in `ast/id.rs` which is not under `src/`): the hash of the
node's canonical serialization. -/
def Ty.semId (t : Ty SemId) : SemId := ⟨blake3Keyed [] t.encodeSem⟩

/-- Modelled from the spec: `KeyTy::id` (in `ast/id.rs`, not under
`src/`): the hash of the key type's canonical serialization. -/
def KeyTy.semId (k : KeyTy) : SemId := ⟨blake3Keyed [] k.encode⟩

/-- `impl TypeRef for KeyTy` in `ast/ty.rs`: the id delegates to
`KeyTy::id`, the three predicates keep their default `false`. -/
instance : TypeRefC KeyTy where
  refId := KeyTy.semId

/-- Modelled from the spec: `TypeName` (external `strict_encoding`
crate) is an "opaque validated identifier/string wrapper ... totally
ordered". -/
abbrev TypeName := String

/-- Modelled from the spec: `LibName`, like `TypeName` an opaque
totally ordered identifier wrapper. -/
abbrev LibName := String

/-- `BTreeMap::insert` on an ascending entry list: place the new
entry at its ordered position, replacing an entry with an equal
key. -/
def mapInsert {κ ν : Type} [LinearOrder κ] (k : κ) (v : ν) :
    List (κ × ν) → List (κ × ν)
  | [] => [(k, v)]
  | e :: rest =>
    if k < e.1 then (k, v) :: e :: rest
    else if k = e.1 then (k, v) :: rest
    else e :: mapInsert k v rest

/-- A `BTreeMap` built by inserting the given entries in the given
order into an empty map. -/
def mapOfList {κ ν : Type} [LinearOrder κ] (entries : List (κ × ν)) :
    List (κ × ν) :=
  entries.foldl (fun acc e => mapInsert e.1 e.2 acc) []

/-- Modelled from the spec: the `TypeLib` struct (its declaration is
in `typelib/mod.rs`, not under `src/`; `src/typelib/id.rs` only
implements `TypeLib::id` for it). Per §3 it is a named collection of
types; only its ordered type map (`self.types`, ascending by type
name) is relevant to `TypeLib::id`. -/
structure TypeLib where
  types : List (TypeName × Ty SemId)

/-- The library identity (a 32-byte `Bytes32` wrapper), modelled as
its byte list. -/
structure TypeLibId where
  bytes : List Nat
deriving DecidableEq

/-- `LIB_ID_TAG` from `typelib/id.rs`: the 32-byte ASCII constant
`b"urn:ubideco:strict-types:lib:v01"`. -/
def LIB_ID_TAG : List Nat :=
  "urn:ubideco:strict-types:lib:v01".toList.map Char.toNat

/-- `TypeLib::id` from `typelib/id.rs`: a keyed blake3 hasher with key
`LIB_ID_TAG` is fed each member type's `SemId` bytes in the type map's
traversal order, then finalized. -/
def TypeLib.id (lib : TypeLib) : TypeLibId :=
  ⟨(lib.types.foldl (fun h e => h.update e.2.semId.bytes)
      (Blake3Hasher.new_keyed LIB_ID_TAG)).finalize⟩

/-- A library assembled by inserting the given `(name, type)` members
into an empty type map in the given order. -/
def TypeLib.ofMembers (members : List (TypeName × Ty SemId)) : TypeLib :=
  ⟨mapOfList members⟩

/-- Modelled from the spec: the bounds error of the confined-container
constructors (`amplify::confinement::Error`): the cardinality together
with the violated bound (§4.1: "fails with `BoundsError{len, min,
max}` when cardinality is outside `[MIN,MAX]`"). -/
inductive ConfinementError where
  | undersize (len minLen : Nat)
  | oversize (len maxLen : Nat)
deriving DecidableEq

/-- Modelled from the spec: `Confined::try_from` (external `amplify`
crate), the single bounds-check entry point of every confined
collection: reject a cardinality outside `[minLen, maxLen]`, otherwise
return the input unchanged — "no silent truncation", all-or-nothing. -/
def confinedTryFrom {α : Type} (minLen maxLen : Nat) (l : List α) :
    Except ConfinementError (List α) :=
  if l.length < minLen then .error (.undersize l.length minLen)
  else if maxLen < l.length then .error (.oversize l.length maxLen)
  else .ok l

/-- `impl TryFrom<Vec<Field<Ref>>> for NamedFields` from `ast/ty.rs`:
`Confined::try_from(inner).map(NamedFields::from)` with bounds
`[1, 255]`. -/
def NamedFields.try_from {Ref : Type} (inner : List (Field Ref)) :
    Except ConfinementError (NamedFields Ref) :=
  (confinedTryFrom 1 255 inner).map NamedFields.mk

/-- `impl TryFrom<Vec<Ref>> for UnnamedFields` from `ast/ty.rs`:
`Confined::try_from(inner).map(UnnamedFields::from)` with bounds
`[1, 255]`. -/
def UnnamedFields.try_from {Ref : Type} (inner : List Ref) :
    Except ConfinementError (UnnamedFields Ref) :=
  (confinedTryFrom 1 255 inner).map UnnamedFields.mk

/-- `impl TryFrom<BTreeMap<Variant, Ref>> for UnionVariants` from
`ast/ty.rs`, over the map's ascending entry list: bounds `[1, 255]`,
entries preserved verbatim. -/
def UnionVariants.try_from {Ref : Type} (inner : List (Variant × Ref)) :
    Except ConfinementError (UnionVariants Ref) :=
  (confinedTryFrom 1 255 inner).map UnionVariants.mk

/-- `impl TryFrom<BTreeSet<Variant>> for EnumVariants` from
`ast/ty.rs`, over the set's ascending element list: bounds `[1, 255]`,
elements preserved verbatim. -/
def EnumVariants.try_from (inner : List Variant) :
    Except ConfinementError EnumVariants :=
  (confinedTryFrom 1 255 inner).map EnumVariants.mk

/-- `TypeFqn` from `typesys/type_sys.rs`: a `{lib, name}` fully
qualified type name. -/
structure TypeFqn where
  lib : LibName
  name : TypeName
deriving DecidableEq

/-- `TypeFqid` from `typesys/type_sys.rs`: a `SemId` with an optional
fully qualified name. -/
structure TypeFqid where
  id : SemId
  fqn : Option TypeFqn
deriving DecidableEq

/-- `TypeSystem` from `typesys/type_sys.rs`:
`MediumOrdMap<TypeFqid, Ty<SemId>>`, modelled as the map's ascending
entry list. -/
structure TypeSystem where
  entries : List (TypeFqid × Ty SemId)

/-- The `SemId` references a `Ty<SemId>` node makes directly: union
variant types, struct field types, tuple field types and the
element/value type of the four collection classes (map keys are inline
`KeyTy` values and reference nothing). -/
def Ty.semRefs : Ty SemId → List SemId
  | .primitive _ => []
  | .unicodeChar => []
  | .enum _ => []
  | .union variants => variants.toList.map Prod.snd
  | .tuple fields => fields.toList
  | .struc fields => fields.toList.map Field.ty
  | .array r _ => [r]
  | .list r _ => [r]
  | .set r _ => [r]
  | .map _ r _ => [r]

/-- Whether an id is a key of the system. -/
def TypeSystem.containsId (s : TypeSystem) (r : SemId) : Bool :=
  s.entries.any (fun e => e.1.id == r)

/-- Look a member type up by its id. -/
def TypeSystem.lookup (s : TypeSystem) (i : SemId) : Option (Ty SemId) :=
  (s.entries.find? (fun e => e.1.id == i)).map Prod.snd

/-- Modelled from the spec: the fatal validation error for a type
system with a dangling reference (`IncompleteSystem`, §7). -/
inductive SystemError where
  | incompleteSystem
deriving DecidableEq

/-- Modelled from the spec: the completeness validation run whenever a
`TypeSystem` is assembled or deserialized (the checked assembly lives
in the `typesys` module outside `src/`; `src/typesys/type_sys.rs` only
holds the unchecked insertion): every `SemId` referenced by any member
must be a key of the same system, otherwise fail with
`IncompleteSystem`. -/
def TypeSystem.validate (s : TypeSystem) : Except SystemError Unit :=
  if s.entries.all (fun e => e.2.semRefs.all (fun r => s.containsId r)) then
    .ok ()
  else .error .incompleteSystem

/-- The declarative completeness invariant of §3: no member type
references an id that is not a key of the system. -/
def TypeSystem.Complete (s : TypeSystem) : Prop :=
  ∀ t ∈ s.entries.map Prod.snd, ∀ r ∈ t.semRefs, s.containsId r = true

/-- The ids transitively referenced from the members of a system:
either referenced directly by some member, or referenced by the member
type a reachable id resolves to. -/
inductive TypeSystem.Reaches (s : TypeSystem) : SemId → Prop where
  | of_member (t : Ty SemId) (ht : t ∈ s.entries.map Prod.snd) (r : SemId)
      (hr : r ∈ t.semRefs) : TypeSystem.Reaches s r
  | step (i : SemId) (hi : TypeSystem.Reaches s i) (t : Ty SemId)
      (ht : s.lookup i = some t) (r : SemId) (hr : r ∈ t.semRefs) :
      TypeSystem.Reaches s r

/-- `DeserializeError` from the `encoding` module: either a decoding
failure or the `DataNotEntirelyConsumed` trailing-bytes error. -/
inductive DeserializeError (E : Type) where
  | decode (e : E)
  | dataNotEntirelyConsumed
deriving DecidableEq

/-- `Deserialize::from_strict_serialized` from `encoding/traits.rs`:
run `strict_decode` on the byte blob, then fail with
`DataNotEntirelyConsumed` when the reader's buffer is not exhausted.
The strict decoder of the concrete type is abstracted as a function
from the input bytes to the decoded value plus the unconsumed rest of
the buffer. -/
def from_strict_serialized {A E : Type}
    (strict_decode : List Nat → Except E (A × List Nat))
    (ast_data : List Nat) : Except (DeserializeError E) A :=
  match strict_decode ast_data with
  | .error e => .error (.decode e)
  | .ok (me, rest) =>
    if rest.isEmpty then .ok me else .error .dataNotEntirelyConsumed

/-- A one-step decoder used to exercise `from_strict_serialized`:
consume a single byte. -/
def headDecoder : List Nat → Except Unit (Nat × List Nat)
  | [] => .error ()
  | x :: rest => .ok (x, rest)

/-- Ascending entry list of a two-variant union map whose variants are
named `"some"` (tag 0) and `"none"` (tag 1): the names are exactly
`{none, some}` but the tag order puts `"some"` first. -/
def uSwapped : UnionVariants SemId :=
  ⟨[(⟨0, "some"⟩, ⟨[1]⟩), (⟨1, "none"⟩, ⟨[2]⟩)]⟩

/-- Ascending entry list of a two-variant union map recognized as
optional whose `some` variant carries tag 5 instead of
`Variant::some()`'s tag 1. -/
def uBigSome : UnionVariants SemId :=
  ⟨[(⟨0, "none"⟩, ⟨[1]⟩), (⟨5, "some"⟩, ⟨[2]⟩)]⟩

/-- A type system holding a single member `A` (id `0xAA`) whose tuple
references the id `0xBB`, which was never inserted. -/
def exIncomplete : TypeSystem :=
  ⟨[(⟨⟨[0xAA]⟩, none⟩, Ty.tuple ⟨[⟨[0xBB]⟩]⟩)]⟩

/-- A complete one-member type system: the member (id `0xAA`) is an
array over its own id. -/
def exComplete : TypeSystem :=
  ⟨[(⟨⟨[0xAA]⟩, none⟩, Ty.array ⟨[0xAA]⟩ 3)]⟩

/-- Strict ordering of map entries by key, the sortedness invariant of
the ascending entry lists representing `BTreeMap`s. -/
def EntryLt {κ ν : Type} [LinearOrder κ] (a b : κ × ν) : Prop := a.1 < b.1

instance {κ ν : Type} [LinearOrder κ] : IsAntisymm (κ × ν) EntryLt :=
  ⟨fun _ _ h1 h2 => absurd (lt_trans h1 h2) (lt_irrefl _)⟩

/-! ## Sorted-map lemmas

`BTreeMap`s are represented by strictly ascending entry lists;
`mapInsert` preserves that invariant and, on a fresh key, permutes the
entries, so the map built from any insertion order of a duplicate-free
member list is the unique sorted arrangement. -/

theorem mem_mapInsert {κ ν : Type} [LinearOrder κ] (k : κ) (v : ν)
    (l : List (κ × ν)) (b : κ × ν) (hb : b ∈ mapInsert k v l) :
    b = (k, v) ∨ b ∈ l := by
  induction l with
  | nil => simpa [mapInsert] using hb
  | cons e rest ih =>
    unfold mapInsert at hb
    split at hb
    · simp only [List.mem_cons] at hb ⊢
      tauto
    · split at hb
      · simp only [List.mem_cons] at hb ⊢
        tauto
      · simp only [List.mem_cons] at hb ⊢
        rcases hb with h | hb
        · simp [h]
        · rcases ih hb with h | h
          · exact Or.inl h
          · exact Or.inr (Or.inr h)

theorem mapInsert_sorted {κ ν : Type} [LinearOrder κ] (k : κ) (v : ν)
    (l : List (κ × ν)) (h : l.Sorted EntryLt) :
    (mapInsert k v l).Sorted EntryLt := by
  induction l with
  | nil => simp [mapInsert]
  | cons e rest ih =>
    rw [List.sorted_cons] at h
    obtain ⟨he, hrest⟩ := h
    unfold mapInsert
    split
    · next h1 =>
      rw [List.sorted_cons]
      refine ⟨?_, List.sorted_cons.mpr ⟨he, hrest⟩⟩
      intro b hb
      rcases List.mem_cons.mp hb with rfl | hb
      · exact h1
      · exact lt_trans h1 (he b hb)
    · split
      · next h1 h2 =>
        rw [List.sorted_cons]
        refine ⟨?_, hrest⟩
        intro b hb
        have hlt := he b hb
        exact lt_of_eq_of_lt h2 hlt
      · next h1 h2 =>
        rw [List.sorted_cons]
        refine ⟨?_, ih hrest⟩
        intro b hb
        rcases mem_mapInsert k v rest b hb with rfl | hb
        · exact lt_of_le_of_ne (le_of_not_lt h1) (Ne.symm h2)
        · exact he b hb

theorem mapInsert_perm {κ ν : Type} [LinearOrder κ] (k : κ) (v : ν)
    (l : List (κ × ν)) (h : k ∉ l.map Prod.fst) :
    (mapInsert k v l).Perm ((k, v) :: l) := by
  induction l with
  | nil => simp [mapInsert]
  | cons e rest ih =>
    simp only [List.map_cons, List.mem_cons] at h
    push_neg at h
    obtain ⟨hne, hnotin⟩ := h
    rcases lt_trichotomy k e.1 with h1 | h1 | h1
    · have heq : mapInsert k v (e :: rest) = (k, v) :: e :: rest := by
        simp only [mapInsert]
        rw [if_pos h1]
      rw [heq]
    · exact absurd h1 hne
    · have heq : mapInsert k v (e :: rest) = e :: mapInsert k v rest := by
        simp only [mapInsert]
        rw [if_neg (not_lt_of_gt h1), if_neg hne]
      rw [heq]
      exact ((ih hnotin).cons e).trans (List.Perm.swap (k, v) e rest)

theorem foldlInsert_sorted {κ ν : Type} [LinearOrder κ] :
    ∀ (l acc : List (κ × ν)), acc.Sorted EntryLt →
      (l.foldl (fun a e => mapInsert e.1 e.2 a) acc).Sorted EntryLt := by
  intro l
  induction l with
  | nil => intro acc h; simpa using h
  | cons e rest ih => intro acc h; exact ih _ (mapInsert_sorted _ _ _ h)

theorem foldlInsert_perm {κ ν : Type} [LinearOrder κ] :
    ∀ (l acc : List (κ × ν)), ((acc ++ l).map Prod.fst).Nodup →
      (l.foldl (fun a e => mapInsert e.1 e.2 a) acc).Perm (acc ++ l) := by
  intro l
  induction l with
  | nil => intro acc _; simp
  | cons e rest ih =>
    intro acc h
    have hfresh : e.1 ∉ acc.map Prod.fst := by
      intro hmem
      rw [List.map_append] at h
      have := (List.nodup_append.mp h).2.2 hmem
      simp at this
    have hins : (mapInsert e.1 e.2 acc).Perm (e :: acc) := by
      have := mapInsert_perm e.1 e.2 acc hfresh
      simpa using this
    have hperm2 : ((mapInsert e.1 e.2 acc) ++ rest).Perm (acc ++ e :: rest) := by
      refine (hins.append_right rest).trans ?_
      exact List.perm_middle.symm
    have hnodup' : (((mapInsert e.1 e.2 acc) ++ rest).map Prod.fst).Nodup :=
      ((hperm2.map Prod.fst).nodup_iff).mpr h
    simp only [List.foldl_cons]
    exact (ih _ hnodup').trans hperm2

theorem mapOfList_sorted {κ ν : Type} [LinearOrder κ] (l : List (κ × ν)) :
    (mapOfList l).Sorted EntryLt :=
  foldlInsert_sorted l [] (by simp)

theorem mapOfList_perm {κ ν : Type} [LinearOrder κ] (l : List (κ × ν))
    (h : (l.map Prod.fst).Nodup) : (mapOfList l).Perm l := by
  have := foldlInsert_perm l ([] : List (κ × ν)) (by simpa using h)
  simpa [mapOfList] using this

theorem mapOfList_eq_of_perm {κ ν : Type} [LinearOrder κ]
    (l1 l2 : List (κ × ν)) (hp : l1.Perm l2)
    (h1 : (l1.map Prod.fst).Nodup) : mapOfList l1 = mapOfList l2 := by
  have h2 : (l2.map Prod.fst).Nodup := (hp.map Prod.fst).nodup_iff.mp h1
  exact List.eq_of_perm_of_sorted
    (((mapOfList_perm l1 h1).trans hp).trans (mapOfList_perm l2 h2).symm)
    (mapOfList_sorted l1) (mapOfList_sorted l2)

/-- Feeding a hasher a list of byte chunks one `update` at a time
accumulates their concatenation. -/
theorem foldl_update {α : Type} (f : α → List Nat) :
    ∀ (l : List α) (h0 : Blake3Hasher),
      l.foldl (fun h e => h.update (f e)) h0 =
        ⟨h0.key, h0.fed ++ (l.map f).flatten⟩ := by
  intro l
  induction l with
  | nil => intro h0; simp
  | cons e rest ih =>
    intro h0
    rw [List.foldl_cons, ih]
    simp [Blake3Hasher.update, List.append_assoc]

/-- C1: `TypeLib::id()` is the keyed blake3 hash whose key is the
fixed 32-byte ASCII tag `"urn:ubideco:strict-types:lib:v01"`, fed the
concatenation of each member type's `SemId` bytes in the library's
sorted traversal order; hence two libraries assembled from the same
`(name, type)` members yield the same `TypeLibId` regardless of
insertion order, and (being a pure function) the computation is
deterministic. -/
theorem typelib_id_keyed_hash :
    (LIB_ID_TAG.length = 32 ∧ ∀ b ∈ LIB_ID_TAG, b < 128) ∧
    (∀ lib : TypeLib,
      lib.id = ⟨blake3Keyed LIB_ID_TAG
        ((lib.types.map (fun e => e.2.semId.bytes)).flatten)⟩) ∧
    (∀ l1 l2 : List (TypeName × Ty SemId), l1.Perm l2 →
      (l1.map Prod.fst).Nodup →
      (TypeLib.ofMembers l1).id = (TypeLib.ofMembers l2).id) := by
  refine ⟨⟨by decide, by decide⟩, ?_, ?_⟩
  · intro lib
    unfold TypeLib.id
    rw [foldl_update]
    simp [Blake3Hasher.new_keyed, Blake3Hasher.finalize]
  · intro l1 l2 hp hn
    unfold TypeLib.ofMembers
    rw [mapOfList_eq_of_perm l1 l2 hp hn]

/-- Witness for C1: two concrete libraries with the same two members
inserted in opposite orders have the same id. -/
theorem typelib_id_keyed_hash_witness :
    (TypeLib.ofMembers [("A", Ty.UNICODE), ("B", Ty.BYTE)]).id =
    (TypeLib.ofMembers [("B", Ty.BYTE), ("A", Ty.UNICODE)]).id :=
  typelib_id_keyed_hash.2.2 _ _
    (List.Perm.swap ("B", Ty.BYTE) ("A", Ty.UNICODE) []) (by decide)

/-- The executable completeness check agrees with the declarative
completeness invariant. -/
theorem complete_iff_all (s : TypeSystem) :
    s.Complete ↔
      s.entries.all (fun e => e.2.semRefs.all (fun r => s.containsId r)) = true := by
  simp only [TypeSystem.Complete, List.all_eq_true, List.mem_map]
  constructor
  · intro h e he r hr
    exact h e.2 ⟨e, he, rfl⟩ r hr
  · rintro h t ⟨e, he, rfl⟩ r hr
    exact h e he r hr

/-- C2: a `TypeSystem` passes validation exactly when it is complete
(every `SemId` referenced by any member is a key of the system, hence
every transitively referenced id is as well), and the system holding a
member `A` that references a never-inserted id `X` fails validation
with `IncompleteSystem`. -/
theorem typesystem_completeness_validation :
    (∀ s : TypeSystem, s.validate = .ok () ↔ s.Complete) ∧
    (∀ s : TypeSystem, s.validate = .ok () →
      ∀ r, s.Reaches r → s.containsId r = true) ∧
    (exIncomplete.validate = .error .incompleteSystem) := by
  have hiff : ∀ s : TypeSystem, s.validate = .ok () ↔ s.Complete := by
    intro s
    unfold TypeSystem.validate
    by_cases h : s.entries.all (fun e => e.2.semRefs.all (fun r => s.containsId r)) = true
    · rw [if_pos h]
      exact ⟨fun _ => (complete_iff_all s).mpr h, fun _ => rfl⟩
    · rw [if_neg h]
      constructor
      · intro habs
        exact absurd habs (by simp)
      · intro hc
        exact absurd ((complete_iff_all s).mp hc) h
  refine ⟨hiff, ?_, rfl⟩
  intro s hv r hr
  have hc : s.Complete := (hiff s).mp hv
  induction hr with
  | of_member t ht r hr => exact hc t ht r hr
  | step i hi t ht r hr ih =>
    have hfind : ∃ e, s.entries.find? (fun e => e.1.id == i) = some e ∧ e.2 = t := by
      unfold TypeSystem.lookup at ht
      cases hf : s.entries.find? (fun e => e.1.id == i) with
      | none => rw [hf] at ht; simp at ht
      | some e =>
        rw [hf] at ht
        simp at ht
        exact ⟨e, rfl, ht⟩
    obtain ⟨e, hfind, rfl⟩ := hfind
    have hmem : e ∈ s.entries := List.mem_of_find?_eq_some hfind
    exact hc e.2 (List.mem_map.mpr ⟨e, hmem, rfl⟩) r hr

/-- Witness for C2: the concrete self-referencing one-member system
passes validation, so by the theorem it is complete. -/
theorem typesystem_completeness_validation_witness :
    exComplete.Complete :=
  (typesystem_completeness_validation.1 exComplete).mp rfl

/-- C3: `try_to_key` agrees on every input with the narrowing table of
the spec (primitive ↦ primitive, enum ↦ enum, byte array ↦ fixed byte
array, byte list ↦ bytes, unicode array ↦ fixed unicode string,
unicode list ↦ unicode string, ascii list ↦ ascii string, unicode char
↦ one-char unicode string, everything else rejected), and the
recognized ascii character type is the exact 128-variant enum with
tags 0..=127. -/
theorem try_to_key_table {Ref : Type} [TypeRefC Ref] :
    (∀ t : Ty Ref, t.try_to_key = tryToKeySpecTable t) ∧
    (∃ vars : EnumVariants, (Ty.ascii_char : Ty Ref) = .enum vars ∧
      vars.toList.map Variant.tag = List.range 128 ∧
      vars.toList.length = 128) := by
  constructor
  · intro t
    cases t <;> rfl
  · refine ⟨_, rfl, ?_, by simp [Ty.ascii_char]⟩
    rw [List.map_map]
    have hcomp :
        (Variant.tag ∘ fun tag => (⟨tag, defaultVariantName tag⟩ : Variant)) = id :=
      rfl
    rw [hcomp, List.map_id]

/-- `SemId` keeps the default `TypeRef::is_byte`, which is constantly
`false`. -/
theorem semid_is_byte (s : SemId) : TypeRefC.is_byte s = false := rfl

/-- `SemId` keeps the default `TypeRef::is_unicode_char`. -/
theorem semid_is_unicode (s : SemId) : TypeRefC.is_unicode_char s = false := rfl

/-- `SemId` keeps the default `TypeRef::is_ascii_char`. -/
theorem semid_is_ascii (s : SemId) : TypeRefC.is_ascii_char s = false := rfl

/-- C4: over both `TypeRef` instantiations present in the source
(`Ty<SemId>` and `Ty<KeyTy>`), `try_to_key` is total: every input
either narrows to a `KeyTy` whose classification equals the input's
classification, or is returned unchanged as the error value; being a
pure function, it has no other effect. -/
theorem try_to_key_total :
    (∀ t : Ty SemId, (∃ k, t.try_to_key = .ok k ∧ k.cls = t.cls) ∨
      t.try_to_key = .error t) ∧
    (∀ t : Ty KeyTy, (∃ k, t.try_to_key = .ok k ∧ k.cls = t.cls) ∨
      t.try_to_key = .error t) := by
  constructor <;>
    · intro t
      cases t <;>
        first
          | exact Or.inl ⟨_, rfl, rfl⟩
          | exact Or.inr rfl

/-- Counterexample for C5: a union whose two variants are named
exactly `"some"` (tag 0) and `"none"` (tag 1) — the name set is
exactly `{none, some}`, the entry list is ascending by tag — is NOT
recognized as optional, because the sorted position 0 holds `"some"`
rather than `"none"`. -/
theorem is_option_swapped_cex :
    (Ty.union uSwapped).is_option = false ∧
    uSwapped.len = 2 ∧
    uSwapped.toList.map (fun e => e.1.name) = ["some", "none"] ∧
    uSwapped.toList.map (fun e => e.1.tag) = [0, 1] :=
  ⟨rfl, rfl, rfl, rfl⟩

/-- C5 (amended): `is_option` is `true` exactly for a union of two
variants whose ascending entry list has the variant named `"none"` at
position 0 and the variant named `"some"` at position 1 (so names
alone do not suffice: the `none` variant must sort first); unions of
any other arity and non-union types report `false`. -/
theorem is_option_characterization :
    (∀ (v0 v1 : Variant) (a b : SemId), v0.tag < v1.tag →
      ((Ty.union ⟨[(v0, a), (v1, b)]⟩).is_option = true ↔
        (v0.name = "none" ∧ v1.name = "some"))) ∧
    (∀ vs : UnionVariants SemId, vs.len ≠ 2 →
      (Ty.union vs).is_option = false) ∧
    (∀ t : Ty SemId, (∀ vs, t ≠ Ty.union vs) → t.is_option = false) := by
  refine ⟨?_, ?_, ?_⟩
  · intro v0 v1 a b _
    simp [Ty.is_option, UnionVariants.len, UnionVariants.keyAt]
  · intro vs h
    have hlen : (vs.len == 2) = false := by simpa using h
    simp [Ty.is_option, hlen]
  · intro t h
    cases t <;> first | rfl | exact absurd rfl (h _)

/-- Witness for C5 (amended): the canonical optional union
`{none: 0, some: 1}` is recognized. -/
theorem is_option_characterization_witness :
    (Ty.union ⟨[(⟨0, "none"⟩, (⟨[1]⟩ : SemId)), (⟨1, "some"⟩, ⟨[2]⟩)]⟩).is_option
      = true :=
  (is_option_characterization.1 ⟨0, "none"⟩ ⟨1, "some"⟩ ⟨[1]⟩ ⟨[2]⟩
    (by decide)).mpr ⟨rfl, rfl⟩

/-- Counterexample for C6: a union recognized as optional whose
`"some"` variant carries tag 5 — the lookup
`fields.get(&Variant::some())` probes the key `{tag 1, "some"}`, finds
no equal key, and the `.expect("optional")` panics (modelled as the
display returning `none`). -/
theorem display_option_cex :
    (Ty.union uBigSome).is_option = true ∧
    (Ty.union uBigSome).display SemId.display = none :=
  ⟨rfl, rfl⟩

/-- C6 (amended): for a union recognized as optional whose `some`
variant is exactly `Variant::some()` (tag 1, name `"some"`; with
ascending tags this forces the canonical `{none: 0, some: 1}` shape up
to the `none` tag), Display produces the `some` variant's inner type
followed by `"?"` and the `expect` branch cannot panic; when the
`some` variant carries any other tag the by-key lookup misses and the
formatting panics. -/
theorem display_option_canonical :
    ∀ (v0 : Variant) (a b : SemId), v0.name = "none" →
      (Ty.union ⟨[(v0, a), (Variant.someV, b)]⟩).display SemId.display =
        some (SemId.display b ++ "?") := by
  intro v0 a b hname
  have hne : (v0 == (⟨1, "some"⟩ : Variant)) = false := by
    rw [beq_eq_false_iff_ne]
    intro hcontr
    rw [hcontr] at hname
    exact absurd hname (by decide)
  simp [Ty.display, Ty.is_option, UnionVariants.len, UnionVariants.keyAt,
    UnionVariants.get, List.find?, hname, hne, Variant.someV]

/-- Witness for C6 (amended): the canonical optional union displays as
its inner type followed by a question mark. -/
theorem display_option_canonical_witness :
    (Ty.union ⟨[(⟨0, "none"⟩, (⟨[1]⟩ : SemId)), (Variant.someV, ⟨[2]⟩)]⟩).display
        SemId.display =
      some (SemId.display ⟨[2]⟩ ++ "?") :=
  display_option_canonical ⟨0, "none"⟩ ⟨[1]⟩ ⟨[2]⟩ rfl

/-- In-bounds cardinality passes the confinement check unchanged. -/
theorem confinedTryFrom_ok {α : Type} (l : List α) (h1 : 1 ≤ l.length)
    (h2 : l.length ≤ 255) : confinedTryFrom 1 255 l = .ok l := by
  unfold confinedTryFrom
  rw [if_neg (by omega), if_neg (by omega)]

/-- An empty collection fails the confinement check as undersized. -/
theorem confinedTryFrom_under {α : Type} (l : List α) (h : l.length = 0) :
    confinedTryFrom 1 255 l = .error (.undersize 0 1) := by
  simp [confinedTryFrom, h]

/-- A collection beyond 255 elements fails the confinement check as
oversized. -/
theorem confinedTryFrom_over {α : Type} (l : List α) (h : 255 < l.length) :
    confinedTryFrom 1 255 l = .error (.oversize l.length 255) := by
  unfold confinedTryFrom
  rw [if_neg (by omega), if_pos h]

/-- The common behavior of the four collection constructors: wrap on
success, propagate the bounds error on failure. -/
theorem tryFromWrap_spec {α β : Type} (mk : List α → β) (l : List α) :
    (1 ≤ l.length → l.length ≤ 255 →
      (confinedTryFrom 1 255 l).map mk = .ok (mk l)) ∧
    (l.length = 0 →
      (confinedTryFrom 1 255 l).map mk = .error (.undersize 0 1)) ∧
    (255 < l.length →
      (confinedTryFrom 1 255 l).map mk = .error (.oversize l.length 255)) := by
  refine ⟨fun h1 h2 => ?_, fun h => ?_, fun h => ?_⟩
  · rw [confinedTryFrom_ok l h1 h2]; rfl
  · rw [confinedTryFrom_under l h]; rfl
  · rw [confinedTryFrom_over l h]; rfl

/-- C7: each of the four confined collection constructors fails with a
bounds error when given 0 or more than 255 elements, succeeds on every
1..=255-element input, and on success wraps exactly the input
collection (same elements, same order) — all-or-nothing, never
clamping. -/
theorem confined_collections_bounds :
    (∀ l : List (Field SemId),
      (1 ≤ l.length → l.length ≤ 255 → NamedFields.try_from l = .ok ⟨l⟩) ∧
      (l.length = 0 → NamedFields.try_from l = .error (.undersize 0 1)) ∧
      (255 < l.length →
        NamedFields.try_from l = .error (.oversize l.length 255))) ∧
    (∀ l : List SemId,
      (1 ≤ l.length → l.length ≤ 255 → UnnamedFields.try_from l = .ok ⟨l⟩) ∧
      (l.length = 0 → UnnamedFields.try_from l = .error (.undersize 0 1)) ∧
      (255 < l.length →
        UnnamedFields.try_from l = .error (.oversize l.length 255))) ∧
    (∀ l : List (Variant × SemId),
      (1 ≤ l.length → l.length ≤ 255 → UnionVariants.try_from l = .ok ⟨l⟩) ∧
      (l.length = 0 → UnionVariants.try_from l = .error (.undersize 0 1)) ∧
      (255 < l.length →
        UnionVariants.try_from l = .error (.oversize l.length 255))) ∧
    (∀ l : List Variant,
      (1 ≤ l.length → l.length ≤ 255 → EnumVariants.try_from l = .ok ⟨l⟩) ∧
      (l.length = 0 → EnumVariants.try_from l = .error (.undersize 0 1)) ∧
      (255 < l.length →
        EnumVariants.try_from l = .error (.oversize l.length 255))) :=
  ⟨fun l => tryFromWrap_spec NamedFields.mk l,
   fun l => tryFromWrap_spec UnnamedFields.mk l,
   fun l => tryFromWrap_spec UnionVariants.mk l,
   fun l => tryFromWrap_spec EnumVariants.mk l⟩

/-- Witness for C7: a singleton succeeds verbatim, an empty set of
enum variants is undersized, a 256-element tuple is oversized. -/
theorem confined_collections_bounds_witness :
    NamedFields.try_from [⟨"a", (⟨[]⟩ : SemId)⟩] = .ok ⟨[⟨"a", ⟨[]⟩⟩]⟩ ∧
    EnumVariants.try_from [] = .error (.undersize 0 1) ∧
    UnnamedFields.try_from (List.replicate 256 (⟨[]⟩ : SemId)) =
      .error (.oversize 256 255) :=
  ⟨(confined_collections_bounds.1 _).1 (by decide) (by decide),
   (confined_collections_bounds.2.2.2 _).2.1 rfl,
   by
     have hov := (confined_collections_bounds.2.1
       (List.replicate 256 (⟨[]⟩ : SemId))).2.2
       (by rw [List.length_replicate]; omega)
     rw [List.length_replicate] at hov
     exact hov⟩

/-- C8: for every byte 0..=10 the `Cls` conversion succeeds and
converting back yields the same byte (a bijection on the 11
discriminants), and every byte above 10 fails with the
unknown-variant error carrying that byte. -/
theorem cls_u8_bijection :
    (∀ b : Nat, b ≤ 10 → ∃ c : Cls, Cls.try_from b = .ok c ∧ c.toU8 = b) ∧
    (∀ c : Cls, Cls.try_from c.toU8 = .ok c) ∧
    (∀ b : Nat, 10 < b → Cls.try_from b = .error ⟨"Cls", b⟩) := by
  refine ⟨?_, ?_, ?_⟩
  · intro b hb
    interval_cases b <;> exact ⟨_, rfl, rfl⟩
  · intro c
    cases c <;> rfl
  · intro b hb
    have hfind : Cls.ALL.find? (fun cls => cls.toU8 == b) = none := by
      rw [List.find?_eq_none]
      intro c hc
      have hle : c.toU8 ≤ 10 := by cases c <;> simp [Cls.toU8]
      simp only [beq_iff_eq]
      omega
    simp [Cls.try_from, hfind]

/-- Witness for C8: byte 7 round-trips (to `Cls::Array`), byte 11 is
rejected. -/
theorem cls_u8_bijection_witness :
    (∃ c : Cls, Cls.try_from 7 = .ok c ∧ c.toU8 = 7) ∧
    Cls.try_from 11 = .error ⟨"Cls", 11⟩ :=
  ⟨cls_u8_bijection.1 7 (by decide), cls_u8_bijection.2.2 11 (by decide)⟩

/-- C9: `from_strict_serialized` succeeds exactly when decoding
consumes the whole input; whenever the decoder succeeds but leaves
unconsumed bytes, the result is the distinguishable
`DataNotEntirelyConsumed` error instead of the decoded value. -/
theorem from_strict_serialized_consumes_all {A E : Type} :
    (∀ (dec : List Nat → Except E (A × List Nat)) (data : List Nat) (a : A),
      from_strict_serialized dec data = .ok a ↔ dec data = .ok (a, [])) ∧
    (∀ (dec : List Nat → Except E (A × List Nat)) (data : List Nat)
      (a : A) (rest : List Nat), dec data = .ok (a, rest) → rest ≠ [] →
      from_strict_serialized dec data = .error .dataNotEntirelyConsumed) := by
  constructor
  · intro dec data a
    unfold from_strict_serialized
    cases hd : dec data with
    | error e => simp
    | ok p =>
      obtain ⟨a', rest⟩ := p
      cases rest with
      | nil => simp
      | cons x xs => simp
  · intro dec data a rest hd hne
    unfold from_strict_serialized
    rw [hd]
    cases rest with
    | nil => exact absurd rfl hne
    | cons x xs => rfl

/-- Witness for C9: a one-byte decoder on a two-byte input reports
trailing data; on a one-byte input it succeeds. -/
theorem from_strict_serialized_consumes_all_witness :
    from_strict_serialized headDecoder [7, 8] =
      .error .dataNotEntirelyConsumed ∧
    from_strict_serialized headDecoder [7] = .ok 7 :=
  ⟨from_strict_serialized_consumes_all.2 headDecoder [7, 8] 7 [8] rfl
      (by decide),
   (from_strict_serialized_consumes_all.1 headDecoder [7] 7).mpr rfl⟩

/-- C10: `ty_at` returns the element (for maps: value) type of the
four collection classes exactly at positions above 0 and `none` at
position 0; for unions, structs and tuples it returns the member at
the given index (`none` past the end); primitives, the unicode char
and enums have no positional member types. -/
theorem ty_at_positions {Ref : Type} :
    (∀ (r : Ref) (len pos : Nat),
      (Ty.array r len).ty_at pos = if 0 < pos then some r else none) ∧
    (∀ (r : Ref) (s : Sizing) (pos : Nat),
      (Ty.list r s).ty_at pos = if 0 < pos then some r else none) ∧
    (∀ (r : Ref) (s : Sizing) (pos : Nat),
      (Ty.set r s).ty_at pos = if 0 < pos then some r else none) ∧
    (∀ (k : KeyTy) (r : Ref) (s : Sizing) (pos : Nat),
      (Ty.map k r s).ty_at pos = if 0 < pos then some r else none) ∧
    (∀ (vs : UnionVariants Ref) (pos : Nat),
      (Ty.union vs).ty_at pos = (vs.toList.map Prod.snd).get? pos) ∧
    (∀ (fs : NamedFields Ref) (pos : Nat),
      (Ty.struc fs).ty_at pos = (fs.toList.get? pos).map Field.ty) ∧
    (∀ (fs : UnnamedFields Ref) (pos : Nat),
      (Ty.tuple fs).ty_at pos = fs.toList.get? pos) ∧
    (∀ (p : Primitive) (pos : Nat),
      ((Ty.primitive p : Ty Ref)).ty_at pos = none) ∧
    (∀ pos : Nat, ((Ty.unicodeChar : Ty Ref)).ty_at pos = none) ∧
    (∀ (vars : EnumVariants) (pos : Nat),
      ((Ty.enum vars : Ty Ref)).ty_at pos = none) := by
  refine ⟨?_, ?_, ?_, ?_, ?_, ?_, ?_, ?_, ?_, ?_⟩ <;>
    · intros
      rfl

end StrictTypes
